import Mathlib

/-!
Verification of `install-helper-scripts.py` (term-tools repository).

The Python program is a one-shot installer: it discovers scripts in the
repository's `bin` directory, validates their names, installs them into a
user bin directory (copy or symlink), and offers an idempotent PATH update
in a shell configuration file.

This file embeds the program shallowly:

* filesystem paths that the program resolves (`expanduser().resolve()`)
  are modelled as already-resolved absolute paths given by their component
  lists (`AbsPath`);
* the repository `bin` directory is modelled as `Option (List DirEntry)`
  (`none` when `bin` is not a directory, matching `bin_dir.is_dir()`),
  each entry carrying its name, whether `is_file()` holds, its permission
  bits and its resolved absolute path;
* the install directory is modelled as an association list from entry
  names to `DestNode` (regular file with permission bits, symlink with a
  brokenness flag, or a real directory);
* shell-configuration files are modelled by their content
  (`Option String`, `none` when the file does not exist);
* interactive input and environment variables are passed as explicit
  values; `main`'s observable behaviour (exit code, final install
  directory state, printed outcome) is `mainRun`.

Python string primitives are modelled on `List Char` so that every
definition evaluates by kernel reduction: `splitOnChar` models
`str.split` with a one-character separator, `splitLinesPy` models
`str.splitlines` (all line-boundary characters, carriage return +
newline as one boundary), `stripChars` models `str.strip`,
`hasSubstring` models the substring operator `in`, `charListLe` models
the code-point comparison underlying `sorted`, `toLowerStr` models
`str.lower` (for the ASCII inputs the program compares), `isHiddenName`
models `str.startswith(".")`, and `chopTrailingNewline` captures the
trailing newline that Python's `$` anchor tolerates in `re.match`.
-/

/- ### Character and string primitives -/

/-- `True` for the characters of the class `[a-z0-9]` used by
`SCRIPT_NAME_PATTERN`. -/
def isLowerAlnum (c : Char) : Bool :=
  (decide ('a' ≤ c) && decide (c ≤ 'z')) || (decide ('0' ≤ c) && decide (c ≤ '9'))

/-- Split a character list at every occurrence of `sep` (the separators are
dropped; `n` separators yield `n+1` chunks).  This is the semantics of
Python's `str.split(sep)` for a one-character separator. -/
def splitOnChar (sep : Char) : List Char → List (List Char)
  | [] => [[]]
  | c :: rest =>
    if c = sep then [] :: splitOnChar sep rest
    else
      match splitOnChar sep rest with
      | [] => [[c]]
      | l :: ls => (c :: l) :: ls

/-- The characters `str.splitlines` treats as line boundaries: newline,
carriage return, vertical tab, form feed, the file/group/record
separators, next line, and the Unicode line and paragraph separators. -/
def isLineBreak (c : Char) : Bool :=
  c = '\n' || c = '\r' || c = '\x0b' || c = '\x0c' || c = '\x1c' ||
  c = '\x1d' || c = '\x1e' || c = '\u0085' || c = '\u2028' || c = '\u2029'

/-- `str.splitlines`: split at every line-boundary character, with the
two-character sequence carriage return + newline counting as a single
boundary, and no empty chunk after a trailing boundary (so the empty
string yields no lines).  Composing the universal-newline translation of
`Path.read_text` with `splitlines` yields the same lines as `splitlines`
on the raw content, so this also models the lines the program's scan sees
on disk content. -/
def splitLinesPy : List Char → List (List Char)
  | [] => []
  | c :: rest =>
    if c = '\r' then
      match rest with
      | [] => [[]]
      | x :: rest' =>
        if x = '\n' then [] :: splitLinesPy rest'
        else [] :: splitLinesPy (x :: rest')
    else if isLineBreak c then [] :: splitLinesPy rest
    else
      match splitLinesPy rest with
      | [] => [[c]]
      | l :: ls => (c :: l) :: ls

/-- Code-point comparison of character lists: `charListLe a b` is true iff
`a` is lexicographically at most `b`.  This is the string comparison
Python's `sorted` uses on file names. -/
def charListLe : List Char → List Char → Bool
  | [], _ => true
  | _ :: _, [] => false
  | a :: as, b :: bs =>
    if a < b then true
    else if b < a then false
    else charListLe as bs

/-- `str.startswith(".")`: the name's first character is a dot. -/
def isHiddenName (s : String) : Bool :=
  match s.data with
  | [] => false
  | c :: _ => c = '.'

/-- `str.lower` (character-wise; the program only lowercases ASCII shell
names and prompt responses). -/
def toLowerStr (s : String) : String :=
  String.mk (s.data.map Char.toLower)

/-- `str.strip`: drop whitespace characters from both ends. -/
def stripChars (l : List Char) : List Char :=
  ((l.dropWhile Char.isWhitespace).reverse.dropWhile Char.isWhitespace).reverse

/-- The Python substring operator `in`: `hasSubstring needle hay` is true
iff `needle` occurs contiguously in `hay`. -/
def hasSubstring (needle : List Char) : List Char → Bool
  | [] => needle.isEmpty
  | c :: t => needle.isPrefixOf (c :: t) || hasSubstring needle t

/-- `str.endswith("\n")` (in the one place the program uses `endswith`,
the suffix is the single character `'\n'`). -/
def endsWithChar (c : Char) (s : String) : Bool :=
  match s.data.getLast? with
  | some d => d = c
  | none => false

/- ### Script discovery -/

/-- A nonempty run of `[a-z0-9]` characters (the regex fragment
`[a-z0-9]+`). -/
def isAlnumSegment (l : List Char) : Bool :=
  !l.isEmpty && l.all isLowerAlnum

/-- Python's `$` (without `re.MULTILINE`) matches at the end of the
string or just before one newline at the very end, and no character class
of `SCRIPT_NAME_PATTERN` can consume `'\n'`, so `re.match` effectively
sees the name with one trailing newline removed. -/
def chopTrailingNewline (l : List Char) : List Char :=
  match l.getLast? with
  | some c => if c = '\n' then l.dropLast else l
  | none => l

/-- Decides `SCRIPT_NAME_PATTERN.match(name)` where the pattern is
`^[a-z0-9]+(?:-[a-z0-9]+)*(?:\.[a-z0-9]+)?$`: after dropping one trailing
newline (which Python's `$` tolerates), the name has at most one dot; the
part before it is one or more `[a-z0-9]+` segments joined by single
hyphens; the optional part after the dot is a single `[a-z0-9]+` run. -/
def script_name_matches (name : String) : Bool :=
  match splitOnChar '.' (chopTrailingNewline name.data) with
  | [base] => (splitOnChar '-' base).all isAlnumSegment
  | [base, ext] => (splitOnChar '-' base).all isAlnumSegment && isAlnumSegment ext
  | _ => false

/-- An entry of the repository `bin` directory as discovery sees it:
its name, the result of `Path.is_file()`, and (for install) the permission
bits of its `stat` mode and its `resolve()`d absolute path rendered as a
string. -/
structure DirEntry where
  name : String
  isFile : Bool
  mode : Nat
  resolved : String
deriving DecidableEq, Repr

/-- The classification loop of `discover_source_scripts`, run over the
(already sorted) directory listing: skip entries that are not regular
files, skip hidden entries, and split the rest into
(valid scripts, invalid names) by `SCRIPT_NAME_PATTERN`, preserving
order. -/
def discoverLoop : List DirEntry → List DirEntry × List DirEntry
  | [] => ([], [])
  | e :: rest =>
    let acc := discoverLoop rest
    if !e.isFile then acc
    else if isHiddenName e.name then acc
    else if !script_name_matches e.name then (acc.1, e :: acc.2)
    else (e :: acc.1, acc.2)

/-- Comparison used by `sorted(bin_dir.iterdir())`: paths in one directory
compare by file-name code points. -/
def entryLe (a b : DirEntry) : Prop :=
  charListLe a.name.data b.name.data = true

instance : DecidableRel entryLe :=
  fun a b => inferInstanceAs (Decidable (charListLe a.name.data b.name.data = true))

instance : IsTotal DirEntry entryLe :=
  ⟨fun a b => by
    have H : ∀ u v : List Char, charListLe u v = true ∨ charListLe v u = true := by
      intro u
      induction u with
      | nil => intro v; left; rfl
      | cons x xs ih =>
        intro v
        cases v with
        | nil => right; rfl
        | cons y ys =>
          by_cases hxy : x < y
          · left; simp [charListLe, hxy]
          · by_cases hyx : y < x
            · right; simp [charListLe, hyx]
            · rcases ih ys with h | h
              · left; simp [charListLe, hxy, hyx, h]
              · right; simp [charListLe, hxy, hyx, h]
    exact H a.name.data b.name.data⟩

instance : IsTrans DirEntry entryLe :=
  ⟨fun a b c hab hbc => by
    have H : ∀ u v w : List Char, charListLe u v = true → charListLe v w = true →
        charListLe u w = true := by
      intro u
      induction u with
      | nil => intro v w h1 h2; rfl
      | cons x xs ih =>
        intro v w h1 h2
        cases v with
        | nil => simp [charListLe] at h1
        | cons y ys =>
          cases w with
          | nil => simp [charListLe] at h2
          | cons z zs =>
            by_cases hxz : x < z
            · simp [charListLe, hxz]
            · by_cases hxy : x < y <;> by_cases hyz : y < z
              · exact absurd (lt_trans hxy hyz) hxz
              · by_cases hzy : z < y
                · simp [charListLe, hyz, hzy] at h2
                · have heq : y = z := le_antisymm (le_of_not_lt hzy) (le_of_not_lt hyz)
                  exact absurd (heq ▸ hxy) hxz
              · by_cases hyx : y < x
                · simp [charListLe, hxy, hyx] at h1
                · have heq : x = y := le_antisymm (le_of_not_lt hyx) (le_of_not_lt hxy)
                  exact absurd (heq ▸ hyz) hxz
              · by_cases hyx : y < x
                · simp [charListLe, hxy, hyx] at h1
                · by_cases hzy : z < y
                  · simp [charListLe, hyz, hzy] at h2
                  · have hxy' : x = y := le_antisymm (le_of_not_lt hyx) (le_of_not_lt hxy)
                    subst hxy'
                    have hyz' : x = z := le_antisymm (le_of_not_lt hzy) (le_of_not_lt hyz)
                    subst hyz'
                    simp [charListLe, lt_irrefl] at h1 h2 ⊢
                    exact ih ys zs h1 h2
    exact H a.name.data b.name.data c.name.data hab hbc⟩

/-- `discover_source_scripts`: the `bin` directory is `none` when it is not
a directory (then both lists are empty); otherwise its listing is sorted by
name and classified.  Returns (valid source scripts, invalid script
names). -/
def discover_source_scripts (binListing : Option (List DirEntry)) :
    List DirEntry × List DirEntry :=
  match binListing with
  | none => ([], [])
  | some entries => discoverLoop (List.insertionSort entryLe entries)

/-- Names of the valid scripts returned by discovery, in output order. -/
def validNames (binListing : Option (List DirEntry)) : List String :=
  (discover_source_scripts binListing).1.map DirEntry.name

/-- Names of the invalid scripts returned by discovery, in output order. -/
def invalidNames (binListing : Option (List DirEntry)) : List String :=
  (discover_source_scripts binListing).2.map DirEntry.name

/- ### Paths -/

/-- An absolute, fully resolved filesystem path, as its list of components
(`/home/u/bin` is `⟨["home", "u", "bin"]⟩`).  The program resolves every
path it compares (`expanduser().resolve()`), so resolution is the identity
on this representation. -/
structure AbsPath where
  components : List String
deriving DecidableEq, Repr

/-- `str(path)` for an absolute path. -/
def pathToString (p : AbsPath) : String :=
  "/" ++ String.intercalate ("/") p.components

/-- `format_posix_path_value`: render the install directory for use in a
shell configuration line — `$HOME` when it equals the home directory,
`$HOME/<relative>` when `relative_to(home)` succeeds (home's components
are a prefix), else the literal absolute path. -/
def format_posix_path_value (path home : AbsPath) : String :=
  if path = home then "$HOME"
  else if home.components.isPrefixOf path.components then
    "$HOME/" ++ String.intercalate ("/") (path.components.drop home.components.length)
  else pathToString path

/- ### The install directory -/

/-- An entry of the install directory: a regular file with its permission
bits, a symlink (with its target string and whether the target is
missing), or a real (non-symlink) directory. -/
inductive DestNode where
  | file (mode : Nat)
  | symlinkTo (target : String) (broken : Bool)
  | realDir
deriving DecidableEq, Repr

/-- The install directory contents: an association list from entry names
to nodes. -/
abbrev DestDir := List (String × DestNode)

/-- Look an entry up by name. -/
def lookupEntry : DestDir → String → Option DestNode
  | [], _ => none
  | (k, v) :: rest, n => if k = n then some v else lookupEntry rest n

/-- `Path.unlink()`: drop the entry with the given name. -/
def removeEntry : DestDir → String → DestDir
  | [], _ => []
  | (k, v) :: rest, n =>
    if k = n then removeEntry rest n else (k, v) :: removeEntry rest n

/-- Create/replace the entry with the given name. -/
def setEntry (d : DestDir) (n : String) (v : DestNode) : DestDir :=
  (n, v) :: removeEntry d n

/-- `Path.exists()` — follows symlinks, so a broken symlink does not
"exist". -/
def pathExists : Option DestNode → Bool
  | none => false
  | some (.file _) => true
  | some (.symlinkTo _ broken) => !broken
  | some .realDir => true

/-- `Path.is_symlink()`. -/
def pathIsSymlink : Option DestNode → Bool
  | some (.symlinkTo _ _) => true
  | _ => false

/-- `destination_exists(path) = path.exists() or path.is_symlink()` — the
existence test used for the overwrite list and the pre-install removal
check. -/
def destination_exists (node : Option DestNode) : Bool :=
  pathExists node || pathIsSymlink node

/-- `path.is_dir() and not path.is_symlink()`: a real directory (a symlink,
even one pointing at a directory, is not). -/
def isRealDirNode : Option DestNode → Bool
  | some .realDir => true
  | _ => false

/-- `S_IXUSR`, the owner-execute permission bit (`0o100`). -/
def S_IXUSR : Nat := 64

/-- The node placed at the destination for one source script: in symlink
mode a symlink to the resolved source path (whose target exists); in copy
mode a regular file whose permission bits are the copied source bits with
`S_IXUSR` ORed in (`copy2` then `chmod(st_mode | S_IXUSR)`). -/
def installedNode (useSymlink : Bool) (s : DirEntry) : DestNode :=
  if useSymlink then .symlinkTo s.resolved false
  else .file (s.mode ||| S_IXUSR)

/-- The body of the `install_scripts_with_mode` loop for one script:
if the destination exists (including broken symlinks) and is a real
directory, raise `IsADirectoryError` before touching it; otherwise unlink
any existing entry and place the copy/symlink. -/
def installOne (dest : DestDir) (useSymlink : Bool) (s : DirEntry) :
    Except String DestDir :=
  if destination_exists (lookupEntry dest s.name) then
    if isRealDirNode (lookupEntry dest s.name) then
      .error ("Cannot replace directory with script file: " ++ s.name)
    else .ok (setEntry (removeEntry dest s.name) s.name (installedNode useSymlink s))
  else .ok (setEntry dest s.name (installedNode useSymlink s))

/-- Result of `install_scripts_with_mode`: either every script was
installed (with the names installed, in order, and the final directory
state), or an error was raised part-way (with the error message, the
names installed before it, and the directory state at the raise). -/
inductive InstallResult where
  | ok (installed : List String) (dest : DestDir)
  | err (msg : String) (installed : List String) (dest : DestDir)
deriving DecidableEq, Repr

/-- `install_scripts_with_mode`: install the scripts strictly in list
order; the first OS error aborts the rest, and already-completed installs
are kept (no rollback). -/
def installAll : List DirEntry → DestDir → Bool → InstallResult
  | [], dest, _ => .ok [] dest
  | s :: rest, dest, useSymlink =>
    match installOne dest useSymlink s with
    | .error msg => .err msg [] dest
    | .ok dest' =>
      match installAll rest dest' useSymlink with
      | .ok names d => .ok (s.name :: names) d
      | .err msg names d => .err msg (s.name :: names) d

/- ### The main pipeline -/

/-- `response.strip().lower() in {"y", "yes"}` — an affirmative answer to
an interactive `[y/N]` prompt. -/
def isAffirmative (response : String) : Bool :=
  let r := toLowerStr (String.mk (stripChars response.data))
  (r == "y") || (r == "yes")

/-- `confirm_overwrites`: an empty overwrite list needs no confirmation;
otherwise `--yes` auto-confirms, else the interactive response decides
(defaulting to "no" on anything non-affirmative). -/
def confirm_overwrites (overwritePaths : List String) (assumeYes : Bool)
    (response : String) : Bool :=
  if overwritePaths.isEmpty then true
  else if assumeYes then true
  else isAffirmative response

/-- The parsed command-line flags `--symlink` and `--yes`. -/
structure Config where
  useSymlink : Bool
  assumeYes : Bool
deriving DecidableEq, Repr

/-- The world `main` runs against: the `bin` directory listing (`none`
when `bin` is not a directory), whether the install directory exists, its
contents, and the interactive answer given if the overwrite prompt is
shown. -/
structure World where
  binListing : Option (List DirEntry)
  destDirExists : Bool
  dest : DestDir
  response : String
deriving DecidableEq, Repr

/-- What `main` reports before exiting. -/
inductive MainOutcome where
  | invalidNamesFound (names : List String)
  | nothingToInstall
  | cancelled
  | installFailed (msg : String)
  | installed (names : List String)
deriving DecidableEq, Repr

/-- The observable result of `main`: its exit code, the final state of the
install directory (existence flag and contents), and the reported
outcome. -/
structure MainResult where
  exitCode : Nat
  destDirExists : Bool
  dest : DestDir
  outcome : MainOutcome
deriving DecidableEq, Repr

/-- `main` after argument parsing: discover and validate (exit 2 on any
invalid name, before any mutation), exit 0 when nothing is installable,
create the install directory (`mkdir(parents=True, exist_ok=True)`),
build the overwrite list with `destination_exists`, confirm (exit 1 when
declined), then install (exit 1 on an OS error, keeping earlier installs;
exit 0 on success). -/
def mainRun (cfg : Config) (w : World) : MainResult :=
  let dsc := discover_source_scripts w.binListing
  if !dsc.2.isEmpty then
    ⟨2, w.destDirExists, w.dest, .invalidNamesFound (dsc.2.map DirEntry.name)⟩
  else if dsc.1.isEmpty then
    ⟨0, w.destDirExists, w.dest, .nothingToInstall⟩
  else
    let overwritePaths :=
      (dsc.1.filter fun s => destination_exists (lookupEntry w.dest s.name)).map DirEntry.name
    if !confirm_overwrites overwritePaths cfg.assumeYes w.response then
      ⟨1, true, w.dest, .cancelled⟩
    else
      match installAll dsc.1 w.dest cfg.useSymlink with
      | .ok names d => ⟨0, true, d, .installed names⟩
      | .err msg _ d => ⟨1, true, d, .installFailed msg⟩

/- ### The PATH advisor -/

/-- The sentinel comment written before an appended PATH line. -/
def PATH_UPDATE_MARKER : String := "# Added by term-tools install-helper-scripts"

/-- Which of the three bash candidate files exist in the home directory. -/
structure HomeFiles where
  bashrcExists : Bool
  bashProfileExists : Bool
  profileExists : Bool
deriving DecidableEq, Repr

/-- `choose_bash_rc_file`: the first existing of `.bashrc`,
`.bash_profile`, `.profile`, defaulting to `.bashrc` when none exists.
Returned (like all rc-file values here) as path components relative to
the home directory. -/
def choose_bash_rc_file (hf : HomeFiles) : List String :=
  if hf.bashrcExists then [".bashrc"]
  else if hf.bashProfileExists then [".bash_profile"]
  else if hf.profileExists then [".profile"]
  else [".bashrc"]

/-- The `PathUpdateTarget` dataclass: reported shell name, configuration
file (components relative to the home directory), and the line to add. -/
structure PathUpdateTarget where
  shell_name : String
  rc_file : List String
  path_line : String
deriving DecidableEq, Repr

/-- `Path(os.environ.get("SHELL", "")).name`: the last path component of
the shell value (empty and `"."` components do not count, matching
`pathlib` name semantics for the values this program reads). -/
def shellBaseName (s : String) : String :=
  String.mk (((splitOnChar '/' s.data).filter
    (fun c => !(c.isEmpty || c = ['.']))).getLastD [])

/-- Character-level expansion underlying `escapeQuotes`. -/
def escChars : List Char → List Char
  | [] => []
  | c :: rest => (if c = '"' then ['\\', '"'] else [c]) ++ escChars rest

/-- `value.replace` of `'"'` by `'\\"'`: escape double quotes for use
inside a double-quoted shell word. -/
def escapeQuotes (s : String) : String :=
  String.mk (escChars s.data)

/-- The export line suggested for zsh, bash and generic POSIX shells. -/
def exportPathLine (escapedValue : String) : String :=
  "export PATH=\"" ++ escapedValue ++ ":$PATH\""

/-- The line suggested for fish. -/
def fishPathLine (escapedValue : String) : String :=
  "fish_add_path \"" ++ escapedValue ++ "\""

/-- `detect_path_update_target`: map the lowercased shell base name to a
configuration file and suggested line; anything unrecognised (including
unset) falls back to `.profile` with an export line. -/
def detect_path_update_target (shellEnv : String) (hf : HomeFiles)
    (installDir home : AbsPath) : PathUpdateTarget :=
  let shell_name := toLowerStr (shellBaseName shellEnv)
  let escaped := escapeQuotes (format_posix_path_value installDir home)
  let reported := if shell_name = "" then "unknown" else shell_name
  if shell_name = "zsh" then
    ⟨reported, [".zshrc"], exportPathLine escaped⟩
  else if shell_name = "bash" then
    ⟨reported, choose_bash_rc_file hf, exportPathLine escaped⟩
  else if shell_name = "fish" then
    ⟨reported, [".config", "fish", "config.fish"], fishPathLine escaped⟩
  else
    ⟨reported, [".profile"], exportPathLine escaped⟩

/-- One iteration of the `rc_file_has_path_entry` scan: the stripped line
is non-blank, is not a comment, mentions `PATH` or `fish_add_path`, and
contains one of the detection tokens as a substring. -/
def lineMatchesPathEntry (tokens : List String) (rawLine : List Char) : Bool :=
  let line := stripChars rawLine
  match line with
  | [] => false
  | c :: _ =>
    if c = '#' then false
    else
      (hasSubstring ("PATH").data line || hasSubstring ("fish_add_path").data line)
        && tokens.any (fun t => hasSubstring t.data line)

/-- `rc_file_has_path_entry`: scan the configuration file content (when
the file exists) for a non-comment line that looks PATH-related and
mentions the install directory, either as its absolute path string or as
its `$HOME`-relative rendering. -/
def rc_file_has_path_entry (rcContent : Option String)
    (installDir home : AbsPath) : Bool :=
  match rcContent with
  | none => false
  | some content =>
    let tokens := [pathToString installDir, format_posix_path_value installDir home]
    (splitLinesPy content.data).any (lineMatchesPathEntry tokens)

/-- `append_path_update` as a content transformation: append the marker
comment and the suggested line, each newline-terminated, preceded by a
separating newline only when the existing content is non-empty and does
not end in a newline.  A missing file behaves as empty content. -/
def append_path_update (pathLine : String) (rcContent : Option String) : String :=
  let existing := rcContent.getD ""
  let needsSeparator := !existing.isEmpty && !endsWithChar '\n' existing
  existing ++ (if needsSeparator then "\n" else "")
    ++ PATH_UPDATE_MARKER ++ ("\n") ++ pathLine ++ ("\n")

/- ### Concrete data for witnesses -/

/-- The spec's worked discovery example: `foo-bar`, `baz.sh`, `.hidden`,
`BadName`, plus a subdirectory and a name with a trailing newline (valid
under Python's `$` semantics), in unsorted on-disk order. -/
def sampleListing : List DirEntry :=
  [⟨"foo-bar", true, 420, "/repo/bin/foo-bar"⟩,
   ⟨"baz.sh", true, 493, "/repo/bin/baz.sh"⟩,
   ⟨".hidden", true, 420, "/repo/bin/.hidden"⟩,
   ⟨"BadName", true, 420, "/repo/bin/BadName"⟩,
   ⟨"tool\n", true, 493, "/repo/bin/tool\n"⟩,
   ⟨"subdir", false, 493, "/repo/bin/subdir"⟩]

/-- The spec's copy-mode example sources `hello` (mode `0o600`) and
`world` (mode `0o644`). -/
def copySources : List DirEntry :=
  [⟨"hello", true, 384, "/repo/bin/hello"⟩,
   ⟨"world", true, 420, "/repo/bin/world"⟩]

/-- A listing of three valid scripts `a`, `b`, `c` for the
directory-in-the-way scenario. -/
def abcListing : List DirEntry :=
  [⟨"a", true, 493, "/repo/bin/a"⟩,
   ⟨"b", true, 493, "/repo/bin/b"⟩,
   ⟨"c", true, 493, "/repo/bin/c"⟩]

/- ### Bridging lemmas for the name order -/

/-- `charListLe` is the complement of strict lexicographic order. -/
theorem charListLe_iff_not_lex (u v : List Char) :
    charListLe u v = true ↔ ¬ List.Lex (· < ·) v u := by
  induction u generalizing v with
  | nil =>
    constructor
    · intro _ h
      exact List.Lex.not_nil_right _ _ h
    · intro _; rfl
  | cons x xs ih =>
    cases v with
    | nil =>
      constructor
      · intro h; cases h
      · intro h; exact absurd (List.Lex.nil) h
    | cons y ys =>
      by_cases hxy : x < y
      · constructor
        · intro _ hlex
          cases hlex with
          | cons h => exact absurd hxy (lt_irrefl _)
          | rel h => exact absurd hxy (asymm h)
        · intro _; simp [charListLe, hxy]
      · by_cases hyx : y < x
        · constructor
          · intro h; simp [charListLe, hxy, hyx] at h
          · intro h; exact absurd (List.Lex.rel hyx) h
        · have hxy' : x = y := le_antisymm (le_of_not_lt hyx) (le_of_not_lt hxy)
          subst hxy'
          constructor
          · intro h hlex
            have h' : charListLe xs ys = true := by
              simpa [charListLe, lt_irrefl] using h
            cases hlex with
            | cons htail => exact (ih ys).mp h' htail
            | rel hrel => exact absurd hrel (lt_irrefl _)
          · intro h
            have h' : ¬ List.Lex (· < ·) ys xs := fun hlex => h (List.Lex.cons hlex)
            simpa [charListLe, lt_irrefl] using (ih ys).mpr h'

/-- The model comparison implies the standard string order. -/
theorem charListLe_le {x y : String} (h : charListLe x.data y.data = true) :
    x ≤ y := by
  have hlex : ¬ List.Lex (· < ·) y.data x.data := (charListLe_iff_not_lex x.data y.data).mp h
  have hnot : ¬ y.toList < x.toList := fun hc => hlex hc
  exact String.le_iff_toList_le.mpr (le_of_not_lt hnot)

/-- **C7.** Path rendering: for every resolved install directory and home
directory, `format_posix_path_value` renders exactly `$HOME` when the two
are equal, `$HOME/<relative>` when the install directory lies strictly
under the home directory, and the literal absolute path string when it is
not under the home directory at all. -/
theorem format_posix_path_value_cases (path home : AbsPath) :
    (path = home → format_posix_path_value path home = "$HOME") ∧
    (∀ rest : List String, rest ≠ [] → path.components = home.components ++ rest →
      format_posix_path_value path home = "$HOME/" ++ String.intercalate ("/") rest) ∧
    ((¬ ∃ rest : List String, path.components = home.components ++ rest) →
      format_posix_path_value path home = pathToString path) := by
  refine ⟨fun h => by simp [format_posix_path_value, h], ?_, ?_⟩
  · intro rest hne hcomp
    have hpne : path ≠ home := by
      intro h
      apply hne
      have h2 : home.components ++ rest = home.components := by rw [← hcomp, h]
      have h3 := congrArg List.length h2
      simp at h3
      exact h3
    have hpre : home.components.isPrefixOf path.components = true := by
      rw [List.isPrefixOf_iff_prefix, hcomp]
      exact List.prefix_append _ _
    simp only [format_posix_path_value, if_neg hpne, if_pos hpre]
    rw [hcomp, List.drop_left]
  · intro hnot
    have hpne : path ≠ home := by
      intro h
      exact hnot ⟨[], by simp [h]⟩
    have hpre : ¬ home.components.isPrefixOf path.components = true := by
      rw [List.isPrefixOf_iff_prefix]
      rintro ⟨rest, hr⟩
      exact hnot ⟨rest, hr.symm⟩
    simp [format_posix_path_value, if_neg hpne, hpre]

/-- Witness for C7 at the spec's own examples: with home `/home/u`,
install directory `/home/u/bin` renders as `$HOME/bin`. -/
theorem format_posix_path_value_cases_witness :
    format_posix_path_value ⟨["home", "u", "bin"]⟩ ⟨["home", "u"]⟩ = "$HOME/bin" :=
  ((format_posix_path_value_cases ⟨["home", "u", "bin"]⟩ ⟨["home", "u"]⟩).2.1
    ["bin"] (by decide) rfl).trans (by decide)

/-- **C9.** The existence test used to build the overwrite list and for the
pre-install removal check returns `true` whenever the destination path
exists as a regular file, as a real directory, or as a symlink — including
a broken symlink whose target does not exist. -/
theorem destination_exists_of_node (node : DestNode) :
    destination_exists (some node) = true := by
  cases node with
  | file mode => rfl
  | symlinkTo target broken => cases broken <;> rfl
  | realDir => rfl

/- ### Discovery classification (C1) -/

/-- The discovery loop keeps exactly the regular, non-hidden entries,
split by the naming pattern, in input order. -/
theorem discoverLoop_eq (L : List DirEntry) :
    discoverLoop L =
      (L.filter (fun e => e.isFile && !isHiddenName e.name && script_name_matches e.name),
       L.filter (fun e => e.isFile && !isHiddenName e.name && !script_name_matches e.name)) := by
  induction L with
  | nil => rfl
  | cons e rest ih =>
    simp only [discoverLoop, ih, List.filter_cons]
    cases hf : e.isFile <;> cases hh : isHiddenName e.name <;>
      cases hm : script_name_matches e.name <;> simp [hf, hh, hm]

/-- Elements of the sorted listing are the elements of the listing. -/
theorem mem_sortedListing {e : DirEntry} {L : List DirEntry} :
    e ∈ List.insertionSort entryLe L ↔ e ∈ L :=
  (List.perm_insertionSort entryLe L).mem_iff

/-- **C1.** Discovery classification: for every entry of the source `bin`
directory, a regular non-hidden entry whose name matches the naming
pattern appears in the valid list, a regular non-hidden entry whose name
does not match appears in the invalid list, hidden entries and non-regular
entries appear in neither list, and both output lists are in sorted name
order. -/
theorem discovery_classification (L : List DirEntry)
    (hnd : (L.map DirEntry.name).Nodup) :
    (∀ e ∈ L, e.isFile = true → isHiddenName e.name = false →
      (script_name_matches e.name = true → e.name ∈ validNames (some L)) ∧
      (script_name_matches e.name = false → e.name ∈ invalidNames (some L))) ∧
    (∀ e ∈ L, (e.isFile = false ∨ isHiddenName e.name = true) →
      e.name ∉ validNames (some L) ∧ e.name ∉ invalidNames (some L)) ∧
    List.Sorted (fun a b : String => a ≤ b) (validNames (some L)) ∧
    List.Sorted (fun a b : String => a ≤ b) (invalidNames (some L)) := by
  have hsorted : List.Sorted entryLe (List.insertionSort entryLe L) :=
    List.sorted_insertionSort entryLe L
  refine ⟨?_, ?_, ?_, ?_⟩
  · intro e he hf hh
    constructor
    · intro hm
      refine List.mem_map.mpr ⟨e, ?_, rfl⟩
      simp only [discover_source_scripts, discoverLoop_eq]
      exact List.mem_filter.mpr ⟨mem_sortedListing.mpr he, by simp [hf, hh, hm]⟩
    · intro hm
      refine List.mem_map.mpr ⟨e, ?_, rfl⟩
      simp only [discover_source_scripts, discoverLoop_eq]
      exact List.mem_filter.mpr ⟨mem_sortedListing.mpr he, by simp [hf, hh, hm]⟩
  · intro e he hbad
    constructor
    · intro hmem
      obtain ⟨e', he', heq⟩ := List.mem_map.mp hmem
      simp only [discover_source_scripts, discoverLoop_eq] at he'
      obtain ⟨he'S, hp⟩ := List.mem_filter.mp he'
      have he'L : e' ∈ L := mem_sortedListing.mp he'S
      have : e' = e := List.inj_on_of_nodup_map hnd he'L he heq
      subst this
      rcases hbad with hb | hb <;> simp [hb] at hp
    · intro hmem
      obtain ⟨e', he', heq⟩ := List.mem_map.mp hmem
      simp only [discover_source_scripts, discoverLoop_eq] at he'
      obtain ⟨he'S, hp⟩ := List.mem_filter.mp he'
      have he'L : e' ∈ L := mem_sortedListing.mp he'S
      have : e' = e := List.inj_on_of_nodup_map hnd he'L he heq
      subst this
      rcases hbad with hb | hb <;> simp [hb] at hp
  · have hp := (hsorted.filter
      (fun e => e.isFile && !isHiddenName e.name && script_name_matches e.name))
    simp only [validNames, discover_source_scripts, discoverLoop_eq]
    exact List.pairwise_map.mpr (hp.imp (fun h => charListLe_le h))
  · have hp := (hsorted.filter
      (fun e => e.isFile && !isHiddenName e.name && !script_name_matches e.name))
    simp only [invalidNames, discover_source_scripts, discoverLoop_eq]
    exact List.pairwise_map.mpr (hp.imp (fun h => charListLe_le h))

/-- Witness for C1 at the spec's worked example. -/
theorem discovery_classification_witness :
    (∀ e ∈ sampleListing, e.isFile = true → isHiddenName e.name = false →
      (script_name_matches e.name = true → e.name ∈ validNames (some sampleListing)) ∧
      (script_name_matches e.name = false → e.name ∈ invalidNames (some sampleListing))) ∧
    (∀ e ∈ sampleListing, (e.isFile = false ∨ isHiddenName e.name = true) →
      e.name ∉ validNames (some sampleListing) ∧
      e.name ∉ invalidNames (some sampleListing)) ∧
    List.Sorted (fun a b : String => a ≤ b) (validNames (some sampleListing)) ∧
    List.Sorted (fun a b : String => a ≤ b) (invalidNames (some sampleListing)) :=
  discovery_classification sampleListing (by decide)

/- ### Install-directory lemmas -/

theorem lookup_removeEntry (d : DestDir) (n m : String) :
    lookupEntry (removeEntry d n) m = if m = n then none else lookupEntry d m := by
  induction d with
  | nil => simp [removeEntry, lookupEntry]
  | cons kv rest ih =>
    obtain ⟨k, v⟩ := kv
    by_cases h1 : k = n
    · subst h1
      by_cases h2 : m = k
      · subst h2; simp [removeEntry, ih]
      · simp [removeEntry, lookupEntry, ih, h2, Ne.symm h2]
    · by_cases h2 : k = m
      · subst h2
        simp [removeEntry, lookupEntry, ih, h1, Ne.symm h1]
      · simp [removeEntry, lookupEntry, ih, h1, h2]

theorem lookup_setEntry (d : DestDir) (n : String) (v : DestNode) (m : String) :
    lookupEntry (setEntry d n v) m = if m = n then some v else lookupEntry d m := by
  by_cases h : n = m
  · subst h; simp [setEntry, lookupEntry]
  · simp [setEntry, lookupEntry, h, lookup_removeEntry, Ne.symm h]

theorem isRealDirNode_iff (node : Option DestNode) :
    isRealDirNode node = true ↔ node = some DestNode.realDir := by
  cases node with
  | none => simp [isRealDirNode]
  | some n => cases n <;> simp [isRealDirNode]

/-- If the destination entry for a script is a real (non-symlink)
directory, the per-script install step raises `IsADirectoryError` without
touching the directory. -/
theorem installOne_err_of_realDir (dest : DestDir) (sym : Bool) (s : DirEntry)
    (h : lookupEntry dest s.name = some DestNode.realDir) :
    installOne dest sym s =
      .error ("Cannot replace directory with script file: " ++ s.name) := by
  simp [installOne, h, destination_exists, pathExists, pathIsSymlink, isRealDirNode]

/-- If the destination entry for a script is not a real directory, the
per-script install step succeeds. -/
theorem installOne_ok_of_not_realDir (dest : DestDir) (sym : Bool) (s : DirEntry)
    (h : lookupEntry dest s.name ≠ some DestNode.realDir) :
    ∃ d', installOne dest sym s = .ok d' := by
  unfold installOne
  by_cases hex : destination_exists (lookupEntry dest s.name) = true
  · have hrd : isRealDirNode (lookupEntry dest s.name) = false := by
      rcases hfalse : isRealDirNode (lookupEntry dest s.name) with _ | _
      · rfl
      · exact absurd ((isRealDirNode_iff _).mp hfalse) h
    exact ⟨_, by rw [if_pos hex, if_neg (by simp [hrd])]⟩
  · exact ⟨_, by rw [if_neg hex]⟩

/-- Lookup after a successful per-script install step: the script's own
entry is the installed node; all other entries are untouched. -/
theorem installOne_ok_lookup (dest : DestDir) (sym : Bool) (s : DirEntry)
    (d' : DestDir) (h : installOne dest sym s = .ok d') (m : String) :
    lookupEntry d' m =
      if m = s.name then some (installedNode sym s) else lookupEntry dest m := by
  unfold installOne at h
  by_cases hex : destination_exists (lookupEntry dest s.name) = true
  · rw [if_pos hex] at h
    by_cases hrd : isRealDirNode (lookupEntry dest s.name) = true
    · rw [if_pos hrd] at h; cases h
    · rw [if_neg hrd] at h
      cases h
      rw [lookup_setEntry]
      by_cases hm : m = s.name
      · simp [hm]
      · simp [hm, lookup_removeEntry]
  · rw [if_neg hex] at h
    cases h
    rw [lookup_setEntry]

/-- Core induction for C4: if some script's destination entry is a real
directory, the install loop stops at the first such script with an error
raised before touching it.  The error carries the names installed before
the failure; in the final state the earlier scripts are installed, the
directory entry is untouched, and entries outside the source names are
untouched. -/
theorem installAll_realDir_err (sources : List DirEntry) (dest : DestDir) (sym : Bool)
    (hnd : (sources.map DirEntry.name).Nodup)
    (s : DirEntry) (hs : s ∈ sources)
    (hdir : lookupEntry dest s.name = some DestNode.realDir) :
    ∃ k msg d, ∃ hk : k < sources.length,
      installAll sources dest sym = .err msg ((sources.take k).map DirEntry.name) d ∧
      lookupEntry dest (sources.get ⟨k, hk⟩).name = some DestNode.realDir ∧
      (∀ t ∈ sources.take k, lookupEntry dest t.name ≠ some DestNode.realDir) ∧
      (∀ t ∈ sources.take k, lookupEntry d t.name = some (installedNode sym t)) ∧
      lookupEntry d s.name = some DestNode.realDir ∧
      (∀ n, n ∉ sources.map DirEntry.name → lookupEntry d n = lookupEntry dest n) := by
  induction sources generalizing dest with
  | nil => cases hs
  | cons t rest ih =>
    by_cases ht : lookupEntry dest t.name = some DestNode.realDir
    · refine ⟨0, "Cannot replace directory with script file: " ++ t.name, dest,
        Nat.succ_pos _, ?_, ?_, ?_, ?_, hdir, ?_⟩
      · simp [installAll, installOne_err_of_realDir dest sym t ht]
      · simpa using ht
      · simp
      · simp
      · intro n _; rfl
    · have hst : s ≠ t := by
        intro h
        exact ht (by rw [← h]; exact hdir)
      have hsrest : s ∈ rest := by
        rcases List.mem_cons.mp hs with h | h
        · exact absurd h hst
        · exact h
      have hnd' : (t.name :: rest.map DirEntry.name).Nodup := by simpa using hnd
      have htn : t.name ∉ rest.map DirEntry.name := (List.nodup_cons.mp hnd').1
      have hndtail : (rest.map DirEntry.name).Nodup := (List.nodup_cons.mp hnd').2
      have hsname : s.name ≠ t.name := by
        intro h
        exact htn (h ▸ List.mem_map_of_mem DirEntry.name hsrest)
      obtain ⟨d', hone⟩ := installOne_ok_of_not_realDir dest sym t ht
      have hlook := installOne_ok_lookup dest sym t d' hone
      have hdir' : lookupEntry d' s.name = some DestNode.realDir := by
        rw [hlook, if_neg hsname]; exact hdir
      obtain ⟨k, msg, d, hk, heq, hkdir, hkearly, hkinst, hsd, hframe⟩ :=
        ih d' hndtail hsrest hdir'
      have hgetmem : rest.get ⟨k, hk⟩ ∈ rest := rest.get_mem k hk
      have hgetname : (rest.get ⟨k, hk⟩).name ≠ t.name := by
        intro h
        exact htn (h ▸ List.mem_map_of_mem DirEntry.name hgetmem)
      refine ⟨k + 1, msg, d, Nat.succ_lt_succ hk, ?_, ?_, ?_, ?_, hsd, ?_⟩
      · simp only [installAll, hone, heq, List.take_succ_cons, List.map_cons]
      · have := hlook (rest.get ⟨k, hk⟩).name
        rw [if_neg hgetname] at this
        simpa using this ▸ hkdir
      · intro u hu
        rcases List.mem_cons.mp (by simpa [List.take_succ_cons] using hu) with h | h
        · subst h; exact ht
        · have humem : u ∈ rest := List.take_subset _ _ h
          have huname : u.name ≠ t.name := by
            intro hn
            exact htn (hn ▸ List.mem_map_of_mem DirEntry.name humem)
          have hlu := hlook u.name
          rw [if_neg huname] at hlu
          rw [← hlu]
          exact hkearly u h
      · intro u hu
        rcases List.mem_cons.mp (by simpa [List.take_succ_cons] using hu) with h | h
        · subst h
          have hfr := hframe u.name htn
          rw [hfr, hlook, if_pos rfl]
        · exact hkinst u h
      · intro n hn
        have hn1 : n ≠ t.name := by
          intro h; exact hn (by simp [h])
        have hn2 : n ∉ rest.map DirEntry.name := by
          intro h; exact hn (by simp [h])
        rw [hframe n hn2, hlook, if_neg hn1]

/-- Core induction for C6: after a fully successful install run, the
reported names are the source names in order, every source script's
destination entry is the installed node, and entries outside the source
names are untouched. -/
theorem installAll_ok_lookup (sources : List DirEntry) (dest : DestDir) (sym : Bool)
    (hnd : (sources.map DirEntry.name).Nodup)
    (names : List String) (d : DestDir)
    (h : installAll sources dest sym = .ok names d) :
    names = sources.map DirEntry.name ∧
    (∀ t ∈ sources, lookupEntry d t.name = some (installedNode sym t)) ∧
    (∀ n, n ∉ sources.map DirEntry.name → lookupEntry d n = lookupEntry dest n) := by
  induction sources generalizing dest names d with
  | nil =>
    simp only [installAll] at h
    cases h
    exact ⟨rfl, by simp, fun n _ => rfl⟩
  | cons t rest ih =>
    have hnd' : (t.name :: rest.map DirEntry.name).Nodup := by simpa using hnd
    have htn : t.name ∉ rest.map DirEntry.name := (List.nodup_cons.mp hnd').1
    have hndtail : (rest.map DirEntry.name).Nodup := (List.nodup_cons.mp hnd').2
    cases hone : installOne dest sym t with
    | error msg => simp [installAll, hone] at h
    | ok d' =>
      cases hrest : installAll rest d' sym with
      | err m ns dd => simp [installAll, hone, hrest] at h
      | ok ns dd =>
        simp only [installAll, hone, hrest] at h
        cases h
        obtain ⟨ihnames, ihinst, ihframe⟩ := ih d' hndtail ns d hrest
        have hlook := installOne_ok_lookup dest sym t d' hone
        refine ⟨by simp [ihnames], ?_, ?_⟩
        · intro u hu
          rcases List.mem_cons.mp hu with hut | hur
          · subst hut
            rw [ihframe u.name htn, hlook, if_pos rfl]
          · exact ihinst u hur
        · intro n hn
          have hn1 : n ≠ t.name := by
            intro hh; exact hn (by simp [hh])
          have hn2 : n ∉ rest.map DirEntry.name := by
            intro hh; exact hn (by simp [hh])
          rw [ihframe n hn2, hlook, if_neg hn1]

/-- **C10.** Missing source directory is not an error: when the repository
root has no `bin` subdirectory, discovery returns empty valid and invalid
lists, and the program reports nothing to install and exits with status 0
without touching the install directory. -/
theorem missing_bin_dir_is_ok (cfg : Config) (dd : Bool) (dest : DestDir)
    (resp : String) :
    discover_source_scripts none = ([], []) ∧
    mainRun cfg ⟨none, dd, dest, resp⟩ = ⟨0, dd, dest, .nothingToInstall⟩ :=
  ⟨rfl, rfl⟩

/-- **C2.** All-or-nothing validation gate: whenever discovery returns a
non-empty invalid list, the program reports the invalid names, exits with
status 2, and performs no filesystem mutation — the install directory is
not created and its contents are unchanged — even when valid scripts exist
alongside the invalid ones. -/
theorem invalid_names_abort (cfg : Config) (w : World)
    (h : (discover_source_scripts w.binListing).2 ≠ []) :
    (mainRun cfg w).exitCode = 2 ∧
    (mainRun cfg w).destDirExists = w.destDirExists ∧
    (mainRun cfg w).dest = w.dest ∧
    (mainRun cfg w).outcome = .invalidNamesFound (invalidNames w.binListing) := by
  have hne : (discover_source_scripts w.binListing).2.isEmpty = false := by
    simpa [List.isEmpty_iff] using h
  simp [mainRun, hne, invalidNames]

/-- Witness for C2: the spec's worked example (`BadName` invalid, two
valid scripts alongside) aborts with exit code 2 and mutates nothing. -/
theorem invalid_names_abort_witness :
    (mainRun ⟨false, false⟩ ⟨some sampleListing, false, [], ""⟩).exitCode = 2 ∧
    (mainRun ⟨false, false⟩ ⟨some sampleListing, false, [], ""⟩).destDirExists = false ∧
    (mainRun ⟨false, false⟩ ⟨some sampleListing, false, [], ""⟩).dest = [] ∧
    (mainRun ⟨false, false⟩ ⟨some sampleListing, false, [], ""⟩).outcome =
      .invalidNamesFound (invalidNames (some sampleListing)) :=
  invalid_names_abort ⟨false, false⟩ ⟨some sampleListing, false, [], ""⟩ (by decide)

/-- **C6.** Copy-mode permission postcondition: for every script installed
in a successful copy-mode run, the destination file's final permission
mode equals the mode copied from the source bitwise-ORed with the
owner-execute bit `S_IXUSR` — the owner-execute bit is set and every
other permission bit keeps exactly its copied value, so no bit is cleared
or overwritten. -/
theorem copy_mode_permission_postcondition (sources : List DirEntry) (dest : DestDir)
    (hnd : (sources.map DirEntry.name).Nodup) (names : List String) (d : DestDir)
    (h : installAll sources dest false = .ok names d) :
    ∀ s ∈ sources,
      lookupEntry d s.name = some (DestNode.file (s.mode ||| S_IXUSR)) ∧
      Nat.testBit (s.mode ||| S_IXUSR) 6 = true ∧
      (∀ i, i ≠ 6 → Nat.testBit (s.mode ||| S_IXUSR) i = Nat.testBit s.mode i) := by
  intro s hs
  obtain ⟨-, hinst, -⟩ := installAll_ok_lookup sources dest false hnd names d h
  have h64 : Nat.testBit S_IXUSR 6 = true := by decide
  refine ⟨by simpa [installedNode] using hinst s hs, ?_, ?_⟩
  · simp [Nat.testBit_or, h64]
  · intro i hi
    have hbit : Nat.testBit S_IXUSR i = false := by
      have h2 : S_IXUSR = 2 ^ 6 := by norm_num [S_IXUSR]
      rw [h2, Nat.testBit_two_pow]
      simp [Ne.symm hi]
    simp [Nat.testBit_or, hbit]

/-- Witness for C6: installing `hello` (mode `0o600`) and `world` in copy
mode into an empty directory gives `hello` mode `0o700` = `448`, with bit
5 (group read, here unset) unchanged. -/
theorem copy_mode_permission_postcondition_witness :
    lookupEntry [("world", DestNode.file 484), ("hello", DestNode.file 448)] "hello"
      = some (DestNode.file (384 ||| S_IXUSR)) ∧
    Nat.testBit (384 ||| S_IXUSR) 6 = true ∧
    Nat.testBit (384 ||| S_IXUSR) 5 = Nat.testBit 384 5 :=
  let h := copy_mode_permission_postcondition copySources [] (by decide)
    ["hello", "world"] [("world", DestNode.file 484), ("hello", DestNode.file 448)]
    (by decide) ⟨"hello", true, 384, "/repo/bin/hello"⟩ (by decide)
  ⟨h.1, h.2.1, h.2.2 5 (by decide)⟩

/-- **C4.** Directory-in-the-way is fatal and never deleted: when some
valid script's destination entry is a real (non-symlink) directory and
confirmation is auto-accepted, the run exits with status 1 reporting an
install failure; the directory entry is still a real directory in the
final state; and there is a first failing index `k` (the directory is at
position `k`, no earlier script's destination was a real directory) such
that all scripts before `k` remain installed — no rollback. -/
theorem directory_in_the_way_fatal (cfg : Config) (w : World) (s : DirEntry)
    (hinv : (discover_source_scripts w.binListing).2 = [])
    (hs : s ∈ (discover_source_scripts w.binListing).1)
    (hdir : lookupEntry w.dest s.name = some DestNode.realDir)
    (hyes : cfg.assumeYes = true)
    (hnd : (((discover_source_scripts w.binListing).1).map DirEntry.name).Nodup) :
    (mainRun cfg w).exitCode = 1 ∧
    (∃ msg, (mainRun cfg w).outcome = .installFailed msg) ∧
    lookupEntry (mainRun cfg w).dest s.name = some DestNode.realDir ∧
    (∃ k, ∃ hk : k < (discover_source_scripts w.binListing).1.length,
      lookupEntry w.dest ((discover_source_scripts w.binListing).1.get ⟨k, hk⟩).name
        = some DestNode.realDir ∧
      (∀ t ∈ (discover_source_scripts w.binListing).1.take k,
        lookupEntry w.dest t.name ≠ some DestNode.realDir) ∧
      (∀ t ∈ (discover_source_scripts w.binListing).1.take k,
        lookupEntry (mainRun cfg w).dest t.name = some (installedNode cfg.useSymlink t))) := by
  obtain ⟨k, msg, d, hk, heq, hkdir, hkearly, hkinst, hsd, -⟩ :=
    installAll_realDir_err (discover_source_scripts w.binListing).1 w.dest
      cfg.useSymlink hnd s hs hdir
  have hvalne : (discover_source_scripts w.binListing).1.isEmpty = false := by
    have : (discover_source_scripts w.binListing).1 ≠ [] := List.ne_nil_of_mem hs
    simpa [List.isEmpty_iff] using this
  have hconf : ∀ paths resp, confirm_overwrites paths cfg.assumeYes resp = true := by
    intro paths resp
    unfold confirm_overwrites
    rw [hyes]
    split <;> rfl
  have hmain : mainRun cfg w = ⟨1, true, d, .installFailed msg⟩ := by
    simp [mainRun, hinv, hvalne, hconf, heq]
  refine ⟨by simp [hmain], ⟨msg, by simp [hmain]⟩, ?_, ⟨k, hk, hkdir, hkearly, ?_⟩⟩
  · rw [hmain]; exact hsd
  · intro t ht
    rw [hmain]
    exact hkinst t ht

/-- Witness for C4: sources `a`, `b`, `c` with a real directory named `b`
at the destination, under auto-confirm, in copy mode. -/
theorem directory_in_the_way_fatal_witness :
    (mainRun ⟨false, true⟩ ⟨some abcListing, true, [("b", DestNode.realDir)], ""⟩).exitCode = 1 ∧
    (∃ msg, (mainRun ⟨false, true⟩
      ⟨some abcListing, true, [("b", DestNode.realDir)], ""⟩).outcome = .installFailed msg) ∧
    lookupEntry (mainRun ⟨false, true⟩
      ⟨some abcListing, true, [("b", DestNode.realDir)], ""⟩).dest "b"
      = some DestNode.realDir ∧
    (∃ k, ∃ hk : k <
        (discover_source_scripts (some abcListing)).1.length,
      lookupEntry [("b", DestNode.realDir)]
        ((discover_source_scripts (some abcListing)).1.get ⟨k, hk⟩).name
        = some DestNode.realDir ∧
      (∀ t ∈ (discover_source_scripts (some abcListing)).1.take k,
        lookupEntry [("b", DestNode.realDir)] t.name ≠ some DestNode.realDir) ∧
      (∀ t ∈ (discover_source_scripts (some abcListing)).1.take k,
        lookupEntry (mainRun ⟨false, true⟩
          ⟨some abcListing, true, [("b", DestNode.realDir)], ""⟩).dest t.name
          = some (installedNode false t))) :=
  directory_in_the_way_fatal ⟨false, true⟩
    ⟨some abcListing, true, [("b", DestNode.realDir)], ""⟩
    ⟨"b", true, 493, "/repo/bin/b"⟩ (by decide) (by decide) (by decide) rfl (by decide)

/-- **C5.** Declining the overwrite confirmation (a non-affirmative
interactive response, with a non-empty overwrite list and without the
auto-confirm flag, against an existing install directory) aborts the run
with exit status 1 and no filesystem changes: the install directory's
contents and existence are unchanged. -/
theorem declined_overwrite_aborts (cfg : Config) (w : World)
    (hinv : (discover_source_scripts w.binListing).2 = [])
    (hover : ((discover_source_scripts w.binListing).1.filter
      (fun s => destination_exists (lookupEntry w.dest s.name))) ≠ [])
    (hyes : cfg.assumeYes = false)
    (hresp : isAffirmative w.response = false)
    (hdd : w.destDirExists = true) :
    (mainRun cfg w).exitCode = 1 ∧
    (mainRun cfg w).dest = w.dest ∧
    (mainRun cfg w).destDirExists = w.destDirExists ∧
    (mainRun cfg w).outcome = .cancelled := by
  have hvalne : (discover_source_scripts w.binListing).1.isEmpty = false := by
    have hne : (discover_source_scripts w.binListing).1 ≠ [] := by
      intro h
      rw [h] at hover
      exact hover rfl
    simpa [List.isEmpty_iff] using hne
  have hmapne : (((discover_source_scripts w.binListing).1.filter
      (fun s => destination_exists (lookupEntry w.dest s.name))).map DirEntry.name).isEmpty
        = false := by
    simpa [List.isEmpty_iff] using hover
  have hconf : confirm_overwrites
      (((discover_source_scripts w.binListing).1.filter
        (fun s => destination_exists (lookupEntry w.dest s.name))).map DirEntry.name)
      cfg.assumeYes w.response = false := by
    simp [confirm_overwrites, hmapne, hyes, hresp]
  simp [mainRun, hinv, hvalne, hconf, hdd]

/-- Witness for C5: one valid script `hello` whose destination already
exists, response `"n"`, no auto-confirm. -/
theorem declined_overwrite_aborts_witness :
    (mainRun ⟨false, false⟩ ⟨some [⟨"hello", true, 420, "/repo/bin/hello"⟩], true,
      [("hello", DestNode.file 493)], "n"⟩).exitCode = 1 ∧
    (mainRun ⟨false, false⟩ ⟨some [⟨"hello", true, 420, "/repo/bin/hello"⟩], true,
      [("hello", DestNode.file 493)], "n"⟩).dest = [("hello", DestNode.file 493)] ∧
    (mainRun ⟨false, false⟩ ⟨some [⟨"hello", true, 420, "/repo/bin/hello"⟩], true,
      [("hello", DestNode.file 493)], "n"⟩).destDirExists = true ∧
    (mainRun ⟨false, false⟩ ⟨some [⟨"hello", true, 420, "/repo/bin/hello"⟩], true,
      [("hello", DestNode.file 493)], "n"⟩).outcome = .cancelled :=
  declined_overwrite_aborts ⟨false, false⟩
    ⟨some [⟨"hello", true, 420, "/repo/bin/hello"⟩], true,
      [("hello", DestNode.file 493)], "n"⟩
    (by decide) (by decide) rfl (by decide) rfl

/-- **C8.** Shell-family to configuration-file mapping: for every value of
the shell environment variable, the chosen configuration file is
`~/.zshrc` when the lowercased base name is `zsh`; the first existing of
`~/.bashrc`, `~/.bash_profile`, `~/.profile` (defaulting to `~/.bashrc`
when none exists) when it is `bash`; `~/.config/fish/config.fish` when it
is `fish`; and `~/.profile` for any other value, including unset. -/
theorem shell_to_rc_file_mapping (shellEnv : String) (hf : HomeFiles)
    (installDir home : AbsPath) :
    (toLowerStr (shellBaseName shellEnv) = "zsh" →
      (detect_path_update_target shellEnv hf installDir home).rc_file = [".zshrc"]) ∧
    (toLowerStr (shellBaseName shellEnv) = "bash" →
      (detect_path_update_target shellEnv hf installDir home).rc_file =
        (if hf.bashrcExists then [".bashrc"]
         else if hf.bashProfileExists then [".bash_profile"]
         else if hf.profileExists then [".profile"]
         else [".bashrc"])) ∧
    (toLowerStr (shellBaseName shellEnv) = "fish" →
      (detect_path_update_target shellEnv hf installDir home).rc_file =
        [".config", "fish", "config.fish"]) ∧
    (toLowerStr (shellBaseName shellEnv) ≠ "zsh" →
      toLowerStr (shellBaseName shellEnv) ≠ "bash" →
      toLowerStr (shellBaseName shellEnv) ≠ "fish" →
      (detect_path_update_target shellEnv hf installDir home).rc_file = [".profile"]) := by
  refine ⟨?_, ?_, ?_, ?_⟩
  · intro h
    simp [detect_path_update_target, h]
  · intro h
    simp [detect_path_update_target, h, choose_bash_rc_file]
  · intro h
    simp [detect_path_update_target, h]
  · intro h1 h2 h3
    simp [detect_path_update_target, h1, h2, h3]

/-- Witness for C8: `SHELL=/usr/bin/zsh` selects `~/.zshrc`. -/
theorem shell_to_rc_file_mapping_witness :
    (detect_path_update_target "/usr/bin/zsh" ⟨true, true, true⟩
      ⟨["home", "u", "bin"]⟩ ⟨["home", "u"]⟩).rc_file = [".zshrc"] :=
  (shell_to_rc_file_mapping "/usr/bin/zsh" ⟨true, true, true⟩
    ⟨["home", "u", "bin"]⟩ ⟨["home", "u"]⟩).1 (by decide)

/- ### PATH-update idempotence lemmas -/

theorem suffix_of_suffix_cons {α : Type} {l : List α} {x : α} {xs : List α}
    (h : l <:+ x :: xs) (hlen : l.length ≤ xs.length) : l <:+ xs := by
  obtain ⟨t, ht⟩ := h
  cases t with
  | nil =>
    simp only [List.nil_append] at ht
    subst ht
    simp at hlen
  | cons y t' =>
    refine ⟨t', ?_⟩
    simp only [List.cons_append] at ht
    injection ht with h1 h2

theorem splitLinesPy_crlf (rest : List Char) :
    splitLinesPy ('\r' :: '\n' :: rest) = [] :: splitLinesPy rest := by
  rw [splitLinesPy.eq_def]
  simp

theorem splitLinesPy_cr_nil : splitLinesPy ['\r'] = [[]] := by
  rw [splitLinesPy.eq_def]
  simp

theorem splitLinesPy_cr_cons (x : Char) (rest : List Char) (hx : x ≠ '\n') :
    splitLinesPy ('\r' :: x :: rest) = [] :: splitLinesPy (x :: rest) := by
  rw [splitLinesPy.eq_def]
  simp [hx]

theorem splitLinesPy_break_cons (c : Char) (rest : List Char)
    (hc : c ≠ '\r') (hb : isLineBreak c = true) :
    splitLinesPy (c :: rest) = [] :: splitLinesPy rest := by
  rw [splitLinesPy.eq_def]
  simp [hc, hb]

theorem splitLinesPy_other_cons (c : Char) (rest : List Char)
    (hc : c ≠ '\r') (hb : isLineBreak c = false) :
    splitLinesPy (c :: rest) =
      (match splitLinesPy rest with
       | [] => [[c]]
       | l :: ls => (c :: l) :: ls) := by
  rw [splitLinesPy.eq_def]
  simp [hc, hb]

theorem splitLinesPy_cons_ne_nil (c : Char) (rest : List Char) :
    splitLinesPy (c :: rest) ≠ [] := by
  by_cases hc : c = '\r'
  · subst hc
    rcases rest with _ | ⟨x, rest'⟩
    · simp [splitLinesPy_cr_nil]
    · by_cases hx : x = '\n'
      · subst hx
        simp [splitLinesPy_crlf]
      · simp [splitLinesPy_cr_cons x rest' hx]
  · by_cases hb : isLineBreak c
    · simp [splitLinesPy_break_cons c rest hc hb]
    · rw [splitLinesPy_other_cons c rest hc (by simpa using hb)]
      rcases h : splitLinesPy rest with _ | ⟨l, ls⟩ <;> simp

theorem splitLinesPy_append_newline_ne_nil (a b : List Char) :
    splitLinesPy (a ++ '\n' :: b) ≠ [] := by
  rcases a with _ | ⟨c, a'⟩
  · exact splitLinesPy_cons_ne_nil '\n' b
  · exact splitLinesPy_cons_ne_nil c (a' ++ '\n' :: b)

theorem splitLinesPy_newline_cons (b : List Char) :
    splitLinesPy ('\n' :: b) = [] :: splitLinesPy b :=
  splitLinesPy_break_cons '\n' b (by decide) (by decide)

theorem splitLinesPy_clean_append (l b : List Char)
    (hl : ∀ c ∈ l, isLineBreak c = false) :
    splitLinesPy (l ++ '\n' :: b) = l :: splitLinesPy b := by
  induction l with
  | nil => simpa using splitLinesPy_newline_cons b
  | cons c l' ih =>
    have hc : isLineBreak c = false := hl c (by simp)
    have hcr : c ≠ '\r' := by
      intro h
      rw [h] at hc
      exact absurd hc (by decide)
    have hrest : ∀ x ∈ l', isLineBreak x = false := fun x hx => hl x (by simp [hx])
    rw [List.cons_append, splitLinesPy_other_cons c _ hcr hc, ih hrest]

theorem splitLinesPy_suffix_aux (n : Nat) : ∀ (a b : List Char), a.length ≤ n →
    splitLinesPy b <:+ splitLinesPy (a ++ '\n' :: b) ∧
    (splitLinesPy b).length < (splitLinesPy (a ++ '\n' :: b)).length := by
  induction n with
  | zero =>
    intro a b ha
    have haa : a = [] := List.eq_nil_of_length_eq_zero (Nat.le_zero.mp ha)
    subst haa
    rw [List.nil_append, splitLinesPy_newline_cons]
    exact ⟨List.suffix_cons _ _, by simp⟩
  | succ n ihn =>
    intro a b ha
    rcases a with _ | ⟨c, a'⟩
    · rw [List.nil_append, splitLinesPy_newline_cons]
      exact ⟨List.suffix_cons _ _, by simp⟩
    · by_cases hc : c = '\r'
      · subst hc
        rcases a' with _ | ⟨x, a''⟩
        · have heq : splitLinesPy (('\r' :: []) ++ '\n' :: b) = [] :: splitLinesPy b := by
            rw [List.cons_append, List.nil_append]
            exact splitLinesPy_crlf b
          rw [heq]
          exact ⟨List.suffix_cons _ _, by simp⟩
        · by_cases hx : x = '\n'
          · subst hx
            have heq : splitLinesPy (('\r' :: '\n' :: a'') ++ '\n' :: b)
                = [] :: splitLinesPy (a'' ++ '\n' :: b) := by
              rw [List.cons_append, List.cons_append]
              exact splitLinesPy_crlf (a'' ++ '\n' :: b)
            obtain ⟨hs, hlen⟩ := ihn a'' b (by simp at ha; omega)
            rw [heq]
            exact ⟨hs.trans (List.suffix_cons _ _), Nat.lt_succ_of_lt hlen⟩
          · have heq : splitLinesPy (('\r' :: x :: a'') ++ '\n' :: b)
                = [] :: splitLinesPy ((x :: a'') ++ '\n' :: b) := by
              rw [List.cons_append, List.cons_append]
              exact splitLinesPy_cr_cons x (a'' ++ '\n' :: b) hx
            obtain ⟨hs, hlen⟩ := ihn (x :: a'') b (by simp only [List.length_cons] at ha ⊢; omega)
            rw [heq]
            exact ⟨hs.trans (List.suffix_cons _ _), Nat.lt_succ_of_lt hlen⟩
      · by_cases hb : isLineBreak c
        · have heq : splitLinesPy ((c :: a') ++ '\n' :: b)
              = [] :: splitLinesPy (a' ++ '\n' :: b) := by
            rw [List.cons_append]
            exact splitLinesPy_break_cons c _ hc hb
          obtain ⟨hs, hlen⟩ := ihn a' b (by simp at ha; omega)
          rw [heq]
          exact ⟨hs.trans (List.suffix_cons _ _), Nat.lt_succ_of_lt hlen⟩
        · rcases hS : splitLinesPy (a' ++ '\n' :: b) with _ | ⟨l, ls⟩
          · exact absurd hS (splitLinesPy_append_newline_ne_nil a' b)
          · obtain ⟨hs, hlen⟩ := ihn a' b (by simp at ha; omega)
            rw [hS] at hs hlen
            have hsuf : splitLinesPy b <:+ ls :=
              suffix_of_suffix_cons hs (Nat.lt_succ_iff.mp (by simpa using hlen))
            have heq : splitLinesPy ((c :: a') ++ '\n' :: b) = (c :: l) :: ls := by
              rw [List.cons_append, splitLinesPy_other_cons c _ hc (by simpa using hb), hS]
            rw [heq]
            exact ⟨hsuf.trans (List.suffix_cons _ _), by simpa using hlen⟩

theorem splitLinesPy_suffix (a b : List Char) :
    splitLinesPy b <:+ splitLinesPy (a ++ '\n' :: b) ∧
    (splitLinesPy b).length < (splitLinesPy (a ++ '\n' :: b)).length :=
  splitLinesPy_suffix_aux a.length a b (le_refl _)

theorem mem_splitLinesPy_surrounded (a l b : List Char)
    (hl : ∀ c ∈ l, isLineBreak c = false) :
    l ∈ splitLinesPy (a ++ '\n' :: (l ++ '\n' :: b)) := by
  have h := (splitLinesPy_suffix a (l ++ '\n' :: b)).1
  rw [splitLinesPy_clean_append l b hl] at h
  exact h.subset (List.mem_cons_self _ _)


theorem hasSubstring_self_append (n b : List Char) :
    hasSubstring n (n ++ b) = true := by
  cases n with
  | nil =>
    cases b with
    | nil => rfl
    | cons c t => simp [hasSubstring, List.isPrefixOf]
  | cons x n' =>
    have hp : (x :: n').isPrefixOf ((x :: n') ++ b) = true := by
      rw [List.isPrefixOf_iff_prefix]
      exact List.prefix_append _ _
    simp only [List.cons_append] at hp ⊢
    simp [hasSubstring, hp]

theorem hasSubstring_append (n a b : List Char) :
    hasSubstring n (a ++ (n ++ b)) = true := by
  induction a with
  | nil => simpa using hasSubstring_self_append n b
  | cons c a' ih =>
    simp only [List.cons_append, hasSubstring, List.append_eq, ih, Bool.or_true]

theorem hasSubstring_of_infix (n hay : List Char) (h : n <:+: hay) :
    hasSubstring n hay = true := by
  obtain ⟨s, t, rfl⟩ := h
  rw [List.append_assoc]
  exact hasSubstring_append n s t

theorem stripChars_eq_self (a : Char) (mid : List Char) (b : Char)
    (ha : a.isWhitespace = false) (hb : b.isWhitespace = false) :
    stripChars (a :: (mid ++ [b])) = a :: (mid ++ [b]) := by
  have h1 : List.dropWhile Char.isWhitespace (a :: (mid ++ [b])) = a :: (mid ++ [b]) := by
    simp [List.dropWhile_cons, ha]
  have h2 : (a :: (mid ++ [b])).reverse = b :: (mid.reverse ++ [a]) := by simp
  have h3 : List.dropWhile Char.isWhitespace (b :: (mid.reverse ++ [a]))
      = b :: (mid.reverse ++ [a]) := by
    simp [List.dropWhile_cons, hb]
  simp [stripChars, h1, h2, h3]

theorem escChars_eq_self (l : List Char) (h : ∀ c ∈ l, c ≠ '"') :
    escChars l = l := by
  induction l with
  | nil => rfl
  | cons c rest ih =>
    have hc : c ≠ '"' := h c (by simp)
    have hrest : ∀ x ∈ rest, x ≠ '"' := fun x hx => h x (by simp [hx])
    simp [escChars, hc, ih hrest]

theorem escapeQuotes_eq_self (s : String) (h : ∀ c ∈ s.data, c ≠ '"') :
    escapeQuotes s = s := by
  show String.mk (escChars s.data) = s
  rw [escChars_eq_self s.data h]

theorem exportLine_data (v : String) :
    (exportPathLine v).data
      = 'e' :: (((("xport PATH=\"").data ++ v.data ++ ((":$PATH")).data) ++ ['"'])) := by
  have e1 : (("export PATH=\"")).data = 'e' :: (("xport PATH=\"")).data := rfl
  have e2 : (((":$PATH\""))).data = ((":$PATH")).data ++ ['"'] := rfl
  simp only [exportPathLine, String.data_append, e1, e2]
  simp [List.append_assoc]

theorem fishLine_data (v : String) :
    (fishPathLine v).data
      = 'f' :: (((("ish_add_path \"")).data ++ v.data) ++ ['"']) := by
  have e1 : (("fish_add_path \"")).data = 'f' :: (("ish_add_path \"")).data := rfl
  have e2 : (("\"")).data = ['"'] := rfl
  simp only [fishPathLine, String.data_append, e1, e2]
  simp [List.append_assoc]

theorem exportLine_no_break (v : String)
    (hn : ∀ c ∈ v.data, isLineBreak c = false) :
    ∀ c ∈ (exportPathLine v).data, isLineBreak c = false := by
  intro c hc
  simp only [exportPathLine, String.data_append] at hc
  rcases List.mem_append.mp hc with hc1 | hc2
  · rcases List.mem_append.mp hc1 with hc3 | hc4
    · exact (by decide : ∀ x ∈ (("export PATH=\"")).data, isLineBreak x = false) c hc3
    · exact hn c hc4
  · exact (by decide : ∀ x ∈ (((":$PATH\""))).data, isLineBreak x = false) c hc2

theorem fishLine_no_break (v : String)
    (hn : ∀ c ∈ v.data, isLineBreak c = false) :
    ∀ c ∈ (fishPathLine v).data, isLineBreak c = false := by
  intro c hc
  simp only [fishPathLine, String.data_append] at hc
  rcases List.mem_append.mp hc with hc1 | hc2
  · rcases List.mem_append.mp hc1 with hc3 | hc4
    · exact (by decide : ∀ x ∈ (("fish_add_path \"")).data, isLineBreak x = false) c hc3
    · exact hn c hc4
  · exact (by decide : ∀ x ∈ (("\"")).data, isLineBreak x = false) c hc2

theorem exportLine_matches (v : String) (tokens : List String) (hv : v ∈ tokens) :
    lineMatchesPathEntry tokens ((exportPathLine v).data) = true := by
  rw [exportLine_data]
  unfold lineMatchesPathEntry
  rw [stripChars_eq_self 'e' _ '"' (by decide) (by decide)]
  simp only [if_neg (by decide : ¬ ('e' = '#'))]
  have hPATH : hasSubstring (("PATH")).data
      ('e' :: (((("xport PATH=\"")).data ++ v.data ++ ((":$PATH")).data) ++ ['"'])) = true := by
    apply hasSubstring_of_infix
    refine ⟨(("export ")).data, (("=\"")).data ++ v.data ++ ((":$PATH")).data ++ ['"'], ?_⟩
    simp [List.append_assoc]
  have htok : hasSubstring v.data
      ('e' :: (((("xport PATH=\"")).data ++ v.data ++ ((":$PATH")).data) ++ ['"'])) = true := by
    apply hasSubstring_of_infix
    refine ⟨('e' :: (("xport PATH=\"")).data), ((":$PATH")).data ++ ['"'], ?_⟩
    simp [List.append_assoc]
  rw [Bool.and_eq_true, Bool.or_eq_true]
  exact ⟨Or.inl hPATH, List.any_eq_true.mpr ⟨v, hv, htok⟩⟩

theorem fishLine_matches (v : String) (tokens : List String) (hv : v ∈ tokens) :
    lineMatchesPathEntry tokens ((fishPathLine v).data) = true := by
  rw [fishLine_data]
  unfold lineMatchesPathEntry
  rw [show ((("ish_add_path \"")).data ++ v.data) ++ ['"']
      = ((("ish_add_path \"")).data ++ v.data) ++ ['"'] from rfl]
  rw [stripChars_eq_self 'f' _ '"' (by decide) (by decide)]
  simp only [if_neg (by decide : ¬ ('f' = '#'))]
  have hFISH : hasSubstring (("fish_add_path")).data
      ('f' :: (((("ish_add_path \"")).data ++ v.data) ++ ['"'])) = true := by
    apply hasSubstring_of_infix
    refine ⟨[], ((" \"")).data ++ v.data ++ ['"'], ?_⟩
    simp [List.append_assoc]
  have htok : hasSubstring v.data
      ('f' :: (((("ish_add_path \"")).data ++ v.data) ++ ['"'])) = true := by
    apply hasSubstring_of_infix
    refine ⟨('f' :: (("ish_add_path \"")).data), ['"'], ?_⟩
    simp [List.append_assoc]
  rw [Bool.and_eq_true, Bool.or_eq_true]
  exact ⟨Or.inr hFISH, List.any_eq_true.mpr ⟨v, hv, htok⟩⟩

theorem append_path_update_data (pathLine : String) (rcContent : Option String) :
    ∃ a : List Char, (append_path_update pathLine rcContent).data
      = a ++ '\n' :: (pathLine.data ++ '\n' :: []) := by
  refine ⟨((rcContent.getD "")
      ++ (if !(rcContent.getD "").isEmpty && !endsWithChar '\n' (rcContent.getD "")
          then "\n" else "")
      ++ PATH_UPDATE_MARKER).data, ?_⟩
  have e1 : (("\n")).data = ['\n'] := rfl
  simp only [append_path_update, String.data_append, e1]
  simp [List.append_assoc]

/-- **C3 (amended).** Idempotence of the PATH update: for every install
directory and home directory whose rendered path value contains no
double-quote character and no line-boundary character (newline, carriage
return, vertical tab, form feed, the file/group/record separators, next
line, or the Unicode line and paragraph separators), and for every shell
value and existing configuration-file content, once the suggested block
(marker comment plus suggested line) has been appended to the
configuration file, re-running the advisor's already-configured scan
`rc_file_has_path_entry` on the resulting content returns `true`, so no
second copy of the block is appended. -/
theorem path_update_idempotent (shellEnv : String) (hf : HomeFiles)
    (installDir home : AbsPath) (rcContent : Option String)
    (hq : ∀ c ∈ (format_posix_path_value installDir home).data, c ≠ '"')
    (hn : ∀ c ∈ (format_posix_path_value installDir home).data, isLineBreak c = false) :
    rc_file_has_path_entry
      (some (append_path_update
        (detect_path_update_target shellEnv hf installDir home).path_line rcContent))
      installDir home = true := by
  have hesc : escapeQuotes (format_posix_path_value installDir home)
      = format_posix_path_value installDir home :=
    escapeQuotes_eq_self _ hq
  have hdetect : (detect_path_update_target shellEnv hf installDir home).path_line
        = exportPathLine (format_posix_path_value installDir home) ∨
      (detect_path_update_target shellEnv hf installDir home).path_line
        = fishPathLine (format_posix_path_value installDir home) := by
    simp only [detect_path_update_target, hesc]
    split_ifs <;> simp
  have hvtok : format_posix_path_value installDir home
      ∈ [pathToString installDir, format_posix_path_value installDir home] := by simp
  have main : ∀ pl : String, (∀ c ∈ pl.data, isLineBreak c = false) →
      lineMatchesPathEntry
        [pathToString installDir, format_posix_path_value installDir home] pl.data = true →
      rc_file_has_path_entry (some (append_path_update pl rcContent))
        installDir home = true := by
    intro pl hpl hmatch
    obtain ⟨a, ha⟩ := append_path_update_data pl rcContent
    simp only [rc_file_has_path_entry]
    rw [ha]
    exact List.any_eq_true.mpr
      ⟨pl.data, mem_splitLinesPy_surrounded a pl.data [] hpl, hmatch⟩
  rcases hdetect with hl | hl <;> rw [hl]
  · exact main _ (exportLine_no_break _ hn) (exportLine_matches _ _ hvtok)
  · exact main _ (fishLine_no_break _ hn) (fishLine_matches _ _ hvtok)

/-- Witness for the amended C3: a zsh shell, install directory
`/home/u/bin` under home `/home/u`, appended to an existing file that
holds one unrelated line. -/
theorem path_update_idempotent_witness :
    rc_file_has_path_entry
      (some (append_path_update
        (detect_path_update_target "/bin/zsh" ⟨true, true, true⟩
          ⟨["home", "u", "bin"]⟩ ⟨["home", "u"]⟩).path_line
        (some "export EDITOR=vim")))
      ⟨["home", "u", "bin"]⟩ ⟨["home", "u"]⟩ = true :=
  path_update_idempotent "/bin/zsh" ⟨true, true, true⟩
    ⟨["home", "u", "bin"]⟩ ⟨["home", "u"]⟩ (some "export EDITOR=vim")
    (by decide) (by decide)

/-- Counterexample to C3 as stated: with install directory
`/home/u/my"bin` (a directory name containing a double quote) the
suggested line stores the escaped value `$HOME/my\"bin`, but the scan
looks for the unescaped tokens, so after appending the block once the
already-configured scan still returns `false` and a second copy would be
appended. -/
theorem path_update_idempotence_counterexample :
    rc_file_has_path_entry
      (some (append_path_update
        (detect_path_update_target "/bin/zsh" ⟨true, true, true⟩
          ⟨["home", "u", "my\"bin"]⟩ ⟨["home", "u"]⟩).path_line none))
      ⟨["home", "u", "my\"bin"]⟩ ⟨["home", "u"]⟩ = false := by decide
